import Mathlib

/-!
Verification of the storage kernel of the CMU15-445 repository: the LRU-K
eviction policy (`src/src/buffer/lru_k_replacer.cpp`), the buffer pool manager
(`src/src/buffer/buffer_pool_manager.cpp`), its page-guard wrappers
(`src/src/storage/page/page_guard.cpp`), the extendible-hashing directory page
(`src/unnamed/part_002`, the complete revision of
`extendible_htable_directory_page.cpp`), and the disk extendible hash table
(`src/src/container/disk/hash/disk_extendible_hash_table.cpp`).

Machine integers are modelled as `Nat`/`Int` with explicit truncation where the
C++ width matters (`% 256` for a `uint8_t` store, `% 2^32` for `uint32_t`
casts, `% 2^64` for `size_t` wrap-around).  Exceptions are modelled with
`Option` (`none` = the C++ code throws).  An uninitialized C++ local that can
be read before being written is modelled as an explicit junk parameter.
-/

namespace BusTub

/-! ## LRU-K replacer (`src/src/buffer/lru_k_replacer.cpp`) -/

/-- One tracked frame: bounded access history plus the evictable flag
(`LRUKNode`). -/
structure LRUKNode where
  history_ : List Nat
  is_evictable_ : Bool
deriving Repr, DecidableEq

namespace LRUKNode

/-- `LRUKNode::GetEvictable`. -/
def GetEvictable (n : LRUKNode) : Bool := n.is_evictable_

/-- `LRUKNode::SetEvictable`. -/
def SetEvictable (n : LRUKNode) (evictable : Bool) : LRUKNode :=
  { n with is_evictable_ := evictable }

/-- `LRUKNode::Size` (length of the access history). -/
def Size (n : LRUKNode) : Nat := n.history_.length

/-- `LRUKNode::EarliestStamp` (`history_.front()`; the C++ call is undefined on
an empty history, we return the `headD` default `0` there). -/
def EarliestStamp (n : LRUKNode) : Nat := n.history_.headD 0

/-- `LRUKNode::Insert`: drop the oldest entry when the history already holds
`k` entries, then append the current timestamp. -/
def Insert (n : LRUKNode) (curr_timestamp k : Nat) : LRUKNode :=
  if n.history_.length = k then
    { n with history_ := n.history_.drop 1 ++ [curr_timestamp] }
  else
    { n with history_ := n.history_ ++ [curr_timestamp] }

end LRUKNode

/-- Association-list lookup, modelling `std::map::find`. -/
def assocFind {α : Type} (l : List (Int × α)) (key : Int) : Option α :=
  match l with
  | [] => none
  | (k, v) :: rest => if k = key then some v else assocFind rest key

/-- Association-list update-or-insert, modelling `std::map::operator[]`
followed by a write (an absent key is default-constructed first). -/
def assocUpsert {α : Type} (l : List (Int × α)) (key : Int) (dflt : α)
    (f : α → α) : List (Int × α) :=
  match l with
  | [] => [(key, f dflt)]
  | (k, v) :: rest =>
      if k = key then (k, f v) :: rest else (k, v) :: assocUpsert rest key dflt f

/-- Association-list erase, modelling `std::map::erase` (erases nothing if the
key is absent). -/
def assocErase {α : Type} (l : List (Int × α)) (key : Int) : List (Int × α) :=
  match l with
  | [] => []
  | (k, v) :: rest => if k = key then rest else (k, v) :: assocErase rest key

/-- The replacer state (`LRUKReplacer`): the `frame_id → LRUKNode` map (a
`std::map`, modelled as an association list in iteration order), the logical
clock, the evictable-frame count (`size_t`), the tracked capacity and `k`. -/
structure LRUKReplacer where
  node_store_ : List (Int × LRUKNode)
  current_timestamp_ : Nat
  curr_size_ : Nat
  replacer_size_ : Nat
  k_ : Nat
deriving Repr, DecidableEq

/-- `size_t` decrement with 64-bit wrap-around (`curr_size_--`). -/
def dec64 (n : Nat) : Nat := (n + (2 ^ 64 - 1)) % 2 ^ 64

/-- The `int32 → uint32` cast `static_cast<uint32_t>(frame_id)`. -/
def castU32 (i : Int) : Nat := (i.emod (2 ^ 32)).toNat

namespace LRUKReplacer

/-- Accumulator of the scan loop inside `LRUKReplacer::Evict`: the candidate
with an under-`k` history (`inf_fid` sentinel `-1`, `inf_earliest_stamp`), and
the full-history candidate (`max_fid`, `max_kdist`).  `inf_earliest_stamp` and
`max_fid` are uninitialized locals in the C++ code; their initial values are
junk parameters of the model. -/
structure EvictAcc where
  inf_fid : Int
  inf_stamp : Nat
  max_fid : Int
  max_kdist : Nat
deriving Repr, DecidableEq

/-- One iteration of the scan loop in `LRUKReplacer::Evict`. -/
def evictStep (k ts : Nat) (acc : EvictAcc) (p : Int × LRUKNode) : EvictAcc :=
  if !p.2.GetEvictable then acc
  else if p.2.Size ≠ k then
    if acc.inf_fid = -1 ∨ p.2.EarliestStamp < acc.inf_stamp then
      { acc with inf_fid := p.1, inf_stamp := p.2.EarliestStamp }
    else acc
  else if ts - p.2.EarliestStamp > acc.max_kdist then
    { acc with max_kdist := ts - p.2.EarliestStamp, max_fid := p.1 }
  else acc

/-- `LRUKReplacer::Evict`.  Returns `none` when it returns `false` (empty
store); otherwise it unconditionally decrements `curr_size_`, erases the chosen
id and returns it — the C++ code never re-checks that an evictable frame was
actually found, so with no evictable frame the uninitialized `max_fid`
(modelled by `junkFid`) is returned. -/
def Evict (r : LRUKReplacer) (junkStamp : Nat) (junkFid : Int) :
    Option Int × LRUKReplacer :=
  if r.node_store_.isEmpty then (none, r)
  else
    let acc := r.node_store_.foldl (evictStep r.k_ r.current_timestamp_)
      ⟨-1, junkStamp, junkFid, 0⟩
    let erase_fid := if acc.inf_fid = -1 then acc.max_fid else acc.inf_fid
    (some erase_fid,
      { r with
        curr_size_ := dec64 r.curr_size_,
        node_store_ := assocErase r.node_store_ erase_fid })

/-- `LRUKReplacer::RecordAccess`; `none` models the thrown exception. -/
def RecordAccess (r : LRUKReplacer) (frame_id : Int) : Option LRUKReplacer :=
  if castU32 frame_id > r.replacer_size_ then none
  else some
    { r with
      node_store_ := assocUpsert r.node_store_ frame_id ⟨[], false⟩
        (fun n => n.Insert r.current_timestamp_ r.k_),
      current_timestamp_ := r.current_timestamp_ + 1 }

/-- `LRUKReplacer::SetEvictable`; `none` models the thrown exception for an
unknown frame. -/
def SetEvictable (r : LRUKReplacer) (frame_id : Int) (set_evictable : Bool) :
    Option LRUKReplacer :=
  match assocFind r.node_store_ frame_id with
  | none => none
  | some node =>
    if node.GetEvictable ≠ set_evictable then
      some { r with
        node_store_ := assocUpsert r.node_store_ frame_id ⟨[], false⟩
          (fun n => n.SetEvictable (!node.GetEvictable)),
        curr_size_ := if node.GetEvictable then dec64 r.curr_size_
          else r.curr_size_ + 1 }
    else some r

/-- `LRUKReplacer::Remove`; `none` models the thrown exception for a
non-evictable tracked frame; removing an unknown frame is a no-op. -/
def Remove (r : LRUKReplacer) (frame_id : Int) : Option LRUKReplacer :=
  match assocFind r.node_store_ frame_id with
  | none => some r
  | some node =>
    if !node.GetEvictable then none
    else some { r with
      node_store_ := assocErase r.node_store_ frame_id,
      curr_size_ := dec64 r.curr_size_ }

end LRUKReplacer

/-! ### Concrete replacer states used in the theorems below -/

/-- A replacer tracking exactly one frame (frame `0`, one recorded access)
that is not evictable — the state after `RecordAccess(0)` on a fresh replacer
of capacity 7 with `k = 2`. -/
def replacerNoEvictable : LRUKReplacer :=
  { node_store_ := [(0, ⟨[0], false⟩)], current_timestamp_ := 1,
    curr_size_ := 0, replacer_size_ := 7, k_ := 2 }

/-- A replacer of capacity 4 with `k = 2` tracking frame 2 (evictable, one
recorded access at time 5). -/
def replacerSize4 : LRUKReplacer :=
  { node_store_ := [(2, ⟨[5], true⟩)], current_timestamp_ := 7,
    curr_size_ := 1, replacer_size_ := 4, k_ := 2 }

/-- The state `replacerSize4` must reach after `RecordAccess(2)`. -/
def replacerSize4After : LRUKReplacer :=
  { node_store_ := [(2, ⟨[5, 7], true⟩)], current_timestamp_ := 8,
    curr_size_ := 1, replacer_size_ := 4, k_ := 2 }

/-- Looking up the key just written by `assocUpsert` yields the updated
value. -/
theorem assocFind_assocUpsert {α : Type} (l : List (Int × α)) (key : Int)
    (dflt : α) (f : α → α) :
    assocFind (assocUpsert l key dflt f) key =
      some (f ((assocFind l key).getD dflt)) := by
  induction l with
  | nil => simp [assocFind, assocUpsert]
  | cons p rest ih =>
    obtain ⟨k, v⟩ := p
    by_cases hk : k = key
    · simp [assocFind, assocUpsert, hk]
    · simp [assocFind, assocUpsert, hk, ih]

/-! ### Invariants of the scan loop inside `LRUKReplacer::Evict` -/

/-- Invariant of the under-`k` candidate (`inf_fid`, `inf_earliest_stamp`)
after the scan has processed the entries of `l`: either no under-`k` evictable
entry has been seen and the sentinel is still `-1`, or the candidate is an
under-`k` evictable entry of `l` whose earliest stamp is minimal among all
under-`k` evictable entries of `l`. -/
def InfInv (k : Nat) (l : List (Int × LRUKNode))
    (acc : LRUKReplacer.EvictAcc) : Prop :=
  (acc.inf_fid = -1 ∧
    ∀ q ∈ l, ¬(q.2.GetEvictable = true ∧ q.2.Size ≠ k)) ∨
  (acc.inf_fid ≠ -1 ∧
    (∃ n, (acc.inf_fid, n) ∈ l ∧ n.GetEvictable = true ∧ n.Size ≠ k ∧
      acc.inf_stamp = n.EarliestStamp) ∧
    ∀ q ∈ l, q.2.GetEvictable = true → q.2.Size ≠ k →
      acc.inf_stamp ≤ q.2.EarliestStamp)

/-- Invariant of the full-history candidate (`max_fid`, `max_kdist`) after the
scan has processed the entries of `l`, valid when every evictable entry has a
full `k`-length history: the under-`k` sentinel is untouched, `max_kdist`
bounds every evictable entry's backward distance, and a nonzero `max_kdist` is
realized by an evictable entry of `l`. -/
def MaxInv (ts : Nat) (l : List (Int × LRUKNode))
    (acc : LRUKReplacer.EvictAcc) : Prop :=
  acc.inf_fid = -1 ∧
  (∀ q ∈ l, q.2.GetEvictable = true →
    ts - q.2.EarliestStamp ≤ acc.max_kdist) ∧
  (acc.max_kdist ≠ 0 →
    ∃ n, (acc.max_fid, n) ∈ l ∧ n.GetEvictable = true ∧
      ts - n.EarliestStamp = acc.max_kdist)

theorem infInv_step (k ts : Nat) (P : List (Int × LRUKNode))
    (acc : LRUKReplacer.EvictAcc) (p : Int × LRUKNode) (hp : (0 : Int) ≤ p.1)
    (hInv : InfInv k P acc) :
    InfInv k (P ++ [p]) (LRUKReplacer.evictStep k ts acc p) := by
  unfold LRUKReplacer.evictStep
  split_ifs with h1 h2 h3 h4
  · -- not evictable: accumulator unchanged
    rcases hInv with ⟨hfid, hnone⟩ | ⟨hne, hwit, hmin⟩
    · refine Or.inl ⟨hfid, ?_⟩
      intro q hq
      rcases List.mem_append.1 hq with hq | hq
      · exact hnone q hq
      · rcases List.mem_singleton.1 hq with rfl
        rintro ⟨hev, -⟩
        simp [hev] at h1
    · refine Or.inr ⟨hne, ?_, ?_⟩
      · obtain ⟨n, hn, hrest⟩ := hwit
        exact ⟨n, List.mem_append_left _ hn, hrest⟩
      · intro q hq hev hsz
        rcases List.mem_append.1 hq with hq | hq
        · exact hmin q hq hev hsz
        · rcases List.mem_singleton.1 hq with rfl
          simp [hev] at h1
  · -- under-k evictable entry that replaces the candidate
    have hev : p.2.GetEvictable = true := by
      simpa using h1
    refine Or.inr ⟨?_, ⟨p.2, ?_, hev, h2, rfl⟩, ?_⟩
    · simp only
      omega
    · simp
    · intro q hq hqev hqsz
      rcases List.mem_append.1 hq with hq | hq
      · rcases hInv with ⟨hfid, hnone⟩ | ⟨hne, hwit, hmin⟩
        · exact absurd ⟨hqev, hqsz⟩ (hnone q hq)
        · rcases h3 with hfid | hlt
          · exact absurd hfid hne
          · exact le_of_lt (lt_of_lt_of_le hlt (hmin q hq hqev hqsz))
      · rcases List.mem_singleton.1 hq with rfl
        exact le_refl _
  · -- under-k evictable entry that loses to the current candidate
    push_neg at h3
    obtain ⟨hne', hle⟩ := h3
    rcases hInv with ⟨hfid, hnone⟩ | ⟨hne, hwit, hmin⟩
    · exact absurd hfid hne'
    · refine Or.inr ⟨hne, ?_, ?_⟩
      · obtain ⟨n, hn, hrest⟩ := hwit
        exact ⟨n, List.mem_append_left _ hn, hrest⟩
      · intro q hq hqev hqsz
        rcases List.mem_append.1 hq with hq | hq
        · exact hmin q hq hqev hqsz
        · rcases List.mem_singleton.1 hq with rfl
          exact hle
  all_goals
  -- full-history branches: the under-k fields are unchanged
  · have hsz : p.2.Size = k := by
      by_contra hc
      exact h2 hc
    rcases hInv with ⟨hfid, hnone⟩ | ⟨hne, hwit, hmin⟩
    · refine Or.inl ⟨hfid, ?_⟩
      intro q hq
      rcases List.mem_append.1 hq with hq | hq
      · exact hnone q hq
      · rcases List.mem_singleton.1 hq with rfl
        rintro ⟨-, hne'⟩
        exact hne' hsz
    · refine Or.inr ⟨hne, ?_, ?_⟩
      · obtain ⟨n, hn, hrest⟩ := hwit
        exact ⟨n, List.mem_append_left _ hn, hrest⟩
      · intro q hq hqev hqsz
        rcases List.mem_append.1 hq with hq | hq
        · exact hmin q hq hqev hqsz
        · rcases List.mem_singleton.1 hq with rfl
          exact absurd hsz hqsz

theorem infInv_foldl (k ts : Nat) (l : List (Int × LRUKNode)) :
    ∀ (P : List (Int × LRUKNode)) (acc : LRUKReplacer.EvictAcc),
      (∀ p ∈ l, (0 : Int) ≤ p.1) → InfInv k P acc →
      InfInv k (P ++ l) (l.foldl (LRUKReplacer.evictStep k ts) acc) := by
  induction l with
  | nil => intro P acc _ hInv; simpa using hInv
  | cons p l ih =>
    intro P acc hfid hInv
    rw [List.foldl_cons]
    have h1 := infInv_step k ts P acc p (hfid p (List.mem_cons_self p l)) hInv
    have h2 := ih (P ++ [p]) (LRUKReplacer.evictStep k ts acc p)
      (fun q hq => hfid q (List.mem_cons_of_mem p hq)) h1
    simpa [List.append_assoc] using h2

theorem maxInv_step (k ts : Nat) (P : List (Int × LRUKNode))
    (acc : LRUKReplacer.EvictAcc) (p : Int × LRUKNode)
    (hfull : p.2.GetEvictable = true → p.2.Size = k)
    (hInv : MaxInv ts P acc) :
    MaxInv ts (P ++ [p]) (LRUKReplacer.evictStep k ts acc p) := by
  obtain ⟨hfid, hbound, hwit⟩ := hInv
  unfold LRUKReplacer.evictStep
  split_ifs with h1 h2 h3 h4
  · -- not evictable
    refine ⟨hfid, ?_, ?_⟩
    · intro q hq hqev
      rcases List.mem_append.1 hq with hq | hq
      · exact hbound q hq hqev
      · rcases List.mem_singleton.1 hq with rfl
        simp [hqev] at h1
    · intro hkd
      obtain ⟨n, hn, hrest⟩ := hwit hkd
      exact ⟨n, List.mem_append_left _ hn, hrest⟩
  · -- under-k branch is unreachable when every evictable entry is full
    exact absurd (hfull (by simpa using h1)) h2
  · exact absurd (hfull (by simpa using h1)) h2
  · -- new maximal backward distance
    refine ⟨hfid, ?_, ?_⟩
    · intro q hq hqev
      rcases List.mem_append.1 hq with hq | hq
      · exact le_of_lt (lt_of_le_of_lt (hbound q hq hqev) h4)
      · rcases List.mem_singleton.1 hq with rfl
        exact le_refl _
    · intro _
      exact ⟨p.2,
        by simp,
        by simpa using h1, rfl⟩
  · -- not a new maximum
    push_neg at h4
    refine ⟨hfid, ?_, ?_⟩
    · intro q hq hqev
      rcases List.mem_append.1 hq with hq | hq
      · exact hbound q hq hqev
      · rcases List.mem_singleton.1 hq with rfl
        exact h4
    · intro hkd
      obtain ⟨n, hn, hrest⟩ := hwit hkd
      exact ⟨n, List.mem_append_left _ hn, hrest⟩

theorem maxInv_foldl (k ts : Nat) (l : List (Int × LRUKNode)) :
    ∀ (P : List (Int × LRUKNode)) (acc : LRUKReplacer.EvictAcc),
      (∀ p ∈ l, p.2.GetEvictable = true → p.2.Size = k) → MaxInv ts P acc →
      MaxInv ts (P ++ l) (l.foldl (LRUKReplacer.evictStep k ts) acc) := by
  induction l with
  | nil => intro P acc _ hInv; simpa using hInv
  | cons p l ih =>
    intro P acc hfull hInv
    rw [List.foldl_cons]
    have h1 := maxInv_step k ts P acc p (hfull p (List.mem_cons_self p l)) hInv
    have h2 := ih (P ++ [p]) (LRUKReplacer.evictStep k ts acc p)
      (fun q hq => hfull q (List.mem_cons_of_mem p hq)) h1
    simpa [List.append_assoc] using h2

/-- C5: with one frame tracked and none evictable, `Evict` nevertheless
reports success: the scan leaves both candidates unset, the uninitialized
`max_fid` (junk) is returned as the victim, and `curr_size_` is decremented
past zero (64-bit wrap).  This refutes the claim that `Evict` returns
`none`/`false` and leaves the state unchanged when no tracked frame is
evictable. -/
theorem evict_no_evictable_frame_still_returns_victim :
    ∀ (junkStamp : Nat) (junkFid : Int),
      (replacerNoEvictable.Evict junkStamp junkFid).1 = some junkFid ∧
      (replacerNoEvictable.Evict junkStamp junkFid).2.curr_size_ =
        2 ^ 64 - 1 := by
  intro js jf
  constructor
  · simp [LRUKReplacer.Evict, replacerNoEvictable, LRUKReplacer.evictStep,
      LRUKNode.GetEvictable]
  · simp [LRUKReplacer.Evict, replacerNoEvictable, dec64]

/-- C9 counterexample: the claim says `RecordAccess` raises for
`frame = replacer_size` (4 here), but the boundary check in the code is
`static_cast<uint32_t>(frame_id) > replacer_size_`, so frame 4 is accepted
and its access is recorded. -/
theorem recordAccess_at_replacer_size_does_not_raise :
    (replacerSize4.RecordAccess 4).isSome = true := by decide

/-- C9 amended: `RecordAccess(frame)` raises an error if and only if `frame`,
cast to `uint32`, is strictly greater than `replacer_size` (so
`frame = replacer_size` is accepted); every non-raising call appends the
current logical timestamp to the frame's history — dropping the oldest entry
when the history already holds `K` entries — and advances the global timestamp
by one. -/
theorem recordAccess_boundary_and_append (r : LRUKReplacer) (f : Int) :
    (r.RecordAccess f = none ↔ castU32 f > r.replacer_size_) ∧
    (∀ r', r.RecordAccess f = some r' →
      r'.current_timestamp_ = r.current_timestamp_ + 1 ∧
      assocFind r'.node_store_ f =
        some { (assocFind r.node_store_ f).getD ⟨[], false⟩ with
          history_ :=
            (if ((assocFind r.node_store_ f).getD ⟨[], false⟩).history_.length
                = r.k_ then
              ((assocFind r.node_store_ f).getD ⟨[], false⟩).history_.drop 1
            else
              ((assocFind r.node_store_ f).getD ⟨[], false⟩).history_)
            ++ [r.current_timestamp_] }) := by
  constructor
  · unfold LRUKReplacer.RecordAccess
    split
    · simp_all
    · simp_all
  · intro r' hr'
    unfold LRUKReplacer.RecordAccess at hr'
    split at hr'
    · exact absurd hr' (by simp)
    · obtain rfl : _ = r' := Option.some.inj hr'
      refine ⟨rfl, ?_⟩
      rw [assocFind_assocUpsert]
      unfold LRUKNode.Insert
      split <;> simp_all

/-- Witness for the C9 amended theorem at concrete inputs: frame 9 raises on
`replacerSize4` (cast 9 > 4), and `RecordAccess(2)` appends timestamp 7 to
frame 2's history and advances the clock to 8. -/
theorem recordAccess_boundary_and_append_witness :
    (replacerSize4.RecordAccess 9 = none ↔
      castU32 9 > replacerSize4.replacer_size_) ∧
    (replacerSize4After.current_timestamp_ =
        replacerSize4.current_timestamp_ + 1 ∧
      assocFind replacerSize4After.node_store_ 2 =
        some { (assocFind replacerSize4.node_store_ 2).getD ⟨[], false⟩ with
          history_ :=
            (if ((assocFind replacerSize4.node_store_ 2).getD
                  ⟨[], false⟩).history_.length = replacerSize4.k_ then
              ((assocFind replacerSize4.node_store_ 2).getD
                ⟨[], false⟩).history_.drop 1
            else
              ((assocFind replacerSize4.node_store_ 2).getD
                ⟨[], false⟩).history_)
            ++ [replacerSize4.current_timestamp_] }) :=
  ⟨(recordAccess_boundary_and_append replacerSize4 9).1,
   (recordAccess_boundary_and_append replacerSize4 2).2 replacerSize4After
     (by decide)⟩

/-- Reachable-state invariant of the replacer: frame ids are nonnegative
(`frame_id_t` values handed out by the pool), every tracked node has at least
one recorded access and at most `k`, and all recorded stamps predate the
current logical time. -/
def WellFormedReplacer (r : LRUKReplacer) : Prop :=
  ∀ p ∈ r.node_store_, (0 : Int) ≤ p.1 ∧ p.2.history_ ≠ [] ∧
    p.2.history_.length ≤ r.k_ ∧
    ∀ s ∈ p.2.history_, s < r.current_timestamp_

instance (r : LRUKReplacer) : Decidable (WellFormedReplacer r) := by
  unfold WellFormedReplacer
  infer_instance

/-- In a well-formed replacer every tracked node's earliest stamp is in its
history and strictly below the clock. -/
theorem earliestStamp_lt_ts (r : LRUKReplacer) (hwf : WellFormedReplacer r)
    (p : Int × LRUKNode) (hp : p ∈ r.node_store_) :
    p.2.EarliestStamp < r.current_timestamp_ := by
  obtain ⟨-, hne, -, hstamps⟩ := hwf p hp
  rcases hh : p.2.history_ with - | ⟨s, t⟩
  · exact absurd hh hne
  · have : p.2.EarliestStamp = s := by
      simp [LRUKNode.EarliestStamp, hh]
    rw [this]
    exact hstamps s (by simp [hh])

/-- C6: on a well-formed replacer state, `Evict` prefers under-`K` evictable
frames — returning one whose earliest recorded access is minimal among all
under-`K` evictable frames — and, when every evictable frame has a full
`K`-length history, returns an evictable frame whose backward `K`-distance
(current time minus `K`-th-most-recent access) is maximal. -/
theorem evict_prefers_underK_then_max_kdist (r : LRUKReplacer)
    (hwf : WellFormedReplacer r) (junkStamp : Nat) (junkFid : Int) :
    ((∃ p ∈ r.node_store_, p.2.GetEvictable = true ∧ p.2.Size < r.k_) →
      ∃ f n, (f, n) ∈ r.node_store_ ∧
        (r.Evict junkStamp junkFid).1 = some f ∧
        n.GetEvictable = true ∧ n.Size < r.k_ ∧
        ∀ q ∈ r.node_store_, q.2.GetEvictable = true → q.2.Size < r.k_ →
          n.EarliestStamp ≤ q.2.EarliestStamp) ∧
    ((∃ p ∈ r.node_store_, p.2.GetEvictable = true) →
      (∀ q ∈ r.node_store_, q.2.GetEvictable = true → q.2.Size = r.k_) →
      ∃ f n, (f, n) ∈ r.node_store_ ∧
        (r.Evict junkStamp junkFid).1 = some f ∧
        n.GetEvictable = true ∧
        ∀ q ∈ r.node_store_, q.2.GetEvictable = true →
          r.current_timestamp_ - q.2.EarliestStamp ≤
            r.current_timestamp_ - n.EarliestStamp) := by
  constructor
  · rintro ⟨p, hp, hev, hsz⟩
    have hnonempty : r.node_store_.isEmpty = false := by
      cases hl : r.node_store_ with
      | nil => rw [hl] at hp; exact absurd hp (List.not_mem_nil p)
      | cons a t => simp [hl]
    have hInv := infInv_foldl r.k_ r.current_timestamp_ r.node_store_ []
      ⟨-1, junkStamp, junkFid, 0⟩ (fun q hq => (hwf q hq).1) (Or.inl (by simp))
    rw [List.nil_append] at hInv
    set acc := r.node_store_.foldl
      (LRUKReplacer.evictStep r.k_ r.current_timestamp_)
      ⟨-1, junkStamp, junkFid, 0⟩ with hacc
    rcases hInv with ⟨-, hnone⟩ | ⟨hne, ⟨n, hn, hnev, hnsz, hnst⟩, hmin⟩
    · exact absurd ⟨hev, Nat.ne_of_lt hsz⟩ (hnone p hp)
    · refine ⟨acc.inf_fid, n, hn, ?_, hnev, ?_, ?_⟩
      · simp only [LRUKReplacer.Evict, hnonempty, Bool.false_eq_true,
          if_false, ← hacc]
        simp [hne]
      · exact lt_of_le_of_ne (hwf (acc.inf_fid, n) hn).2.2.1 hnsz
      · intro q hq hqev hqsz
        rw [← hnst]
        exact hmin q hq hqev (Nat.ne_of_lt hqsz)
  · rintro ⟨p, hp, hev⟩ hall
    have hnonempty : r.node_store_.isEmpty = false := by
      cases hl : r.node_store_ with
      | nil => rw [hl] at hp; exact absurd hp (List.not_mem_nil p)
      | cons a t => simp [hl]
    have hInv := maxInv_foldl r.k_ r.current_timestamp_ r.node_store_ []
      ⟨-1, junkStamp, junkFid, 0⟩ hall ⟨rfl, by simp, by simp⟩
    rw [List.nil_append] at hInv
    set acc := r.node_store_.foldl
      (LRUKReplacer.evictStep r.k_ r.current_timestamp_)
      ⟨-1, junkStamp, junkFid, 0⟩ with hacc
    obtain ⟨hfid, hbound, hwit⟩ := hInv
    have hpos : 0 < r.current_timestamp_ - p.2.EarliestStamp :=
      Nat.sub_pos_of_lt (earliestStamp_lt_ts r hwf p hp)
    have hkd : acc.max_kdist ≠ 0 :=
      Nat.pos_iff_ne_zero.1 (lt_of_lt_of_le hpos (hbound p hp hev))
    obtain ⟨n, hn, hnev, hnkd⟩ := hwit hkd
    refine ⟨acc.max_fid, n, hn, ?_, hnev, ?_⟩
    · simp only [LRUKReplacer.Evict, hnonempty, Bool.false_eq_true,
        if_false, ← hacc]
      simp [hfid]
    · intro q hq hqev
      rw [hnkd]
      exact hbound q hq hqev

/-- A well-formed replacer state (`k = 2`, time 4) with three evictable
frames: frame 0 has one access at time 3, frame 1 a full history, frame 2 one
access at time 0. -/
def replacerUnderK : LRUKReplacer :=
  { node_store_ := [(0, ⟨[3], true⟩), (1, ⟨[1, 2], true⟩), (2, ⟨[0], true⟩)],
    current_timestamp_ := 4, curr_size_ := 3, replacer_size_ := 7, k_ := 2 }

/-- A well-formed replacer state (`k = 2`, time 4) whose evictable frames all
have full histories: frame 0 accessed at 1 and 3, frame 1 at 0 and 2. -/
def replacerAllFull : LRUKReplacer :=
  { node_store_ := [(0, ⟨[1, 3], true⟩), (1, ⟨[0, 2], true⟩)],
    current_timestamp_ := 4, curr_size_ := 2, replacer_size_ := 7, k_ := 2 }

/-- Witness for C6 at concrete inputs: on `replacerUnderK` the under-`K`
preference case applies, on `replacerAllFull` the full-history case
applies. -/
theorem evict_prefers_underK_then_max_kdist_witness :
    (∃ f n, (f, n) ∈ replacerUnderK.node_store_ ∧
      (replacerUnderK.Evict 0 0).1 = some f ∧
      n.GetEvictable = true ∧ n.Size < replacerUnderK.k_ ∧
      ∀ q ∈ replacerUnderK.node_store_, q.2.GetEvictable = true →
        q.2.Size < replacerUnderK.k_ →
        n.EarliestStamp ≤ q.2.EarliestStamp) ∧
    (∃ f n, (f, n) ∈ replacerAllFull.node_store_ ∧
      (replacerAllFull.Evict 0 0).1 = some f ∧
      n.GetEvictable = true ∧
      ∀ q ∈ replacerAllFull.node_store_, q.2.GetEvictable = true →
        replacerAllFull.current_timestamp_ - q.2.EarliestStamp ≤
          replacerAllFull.current_timestamp_ - n.EarliestStamp) :=
  ⟨(evict_prefers_underK_then_max_kdist replacerUnderK (by decide) 0 0).1
      (by decide),
   (evict_prefers_underK_then_max_kdist replacerAllFull (by decide) 0 0).2
      (by decide) (by decide)⟩

/-! ## Extendible-hashing directory page
(`src/unnamed/part_002`, the complete revision of
`extendible_htable_directory_page.cpp`; an earlier, superseded revision of the
same file is concatenated into `src/src/storage/page/page_guard.cpp`). -/

/-- `HTABLE_DIRECTORY_ARRAY_SIZE` (`1 << 9`). -/
def HTABLE_DIRECTORY_ARRAY_SIZE : Nat := 512

/-- `ExtendibleHTableDirectoryPage`: `local_depths_` is an array of `uint8_t`
(entries kept `< 256` by `SetLocalDepth`), `bucket_page_ids_` an array of
`page_id_t` (`INVALID_PAGE_ID = -1`). -/
structure ExtendibleHTableDirectoryPage where
  max_depth_ : Nat
  global_depth_ : Nat
  local_depths_ : List Nat
  bucket_page_ids_ : List Int
deriving Repr, DecidableEq

namespace ExtendibleHTableDirectoryPage

/-- `Size()` = `1 << global_depth_`. -/
def Size (d : ExtendibleHTableDirectoryPage) : Nat := 1 <<< d.global_depth_

/-- `Init(max_depth)`: sets `max_depth_`, zeroes the global depth and
invalidates every bucket page id.  The source leaves `local_depths_` alone (a
freshly allocated page arrives zero-filled from the pool). -/
def Init (d : ExtendibleHTableDirectoryPage) (max_depth : Nat) :
    ExtendibleHTableDirectoryPage :=
  { d with
    max_depth_ := max_depth,
    global_depth_ := 0,
    bucket_page_ids_ := (List.range HTABLE_DIRECTORY_ARRAY_SIZE).foldl
      (fun l i => l.set i (-1)) d.bucket_page_ids_ }

/-- `HashToBucketIndex(hash)` = `hash & ((1 << global_depth_) - 1)`. -/
def HashToBucketIndex (d : ExtendibleHTableDirectoryPage) (hash : Nat) : Nat :=
  hash &&& ((1 <<< d.global_depth_) - 1)

/-- `GetBucketPageId(bucket_idx)`. -/
def GetBucketPageId (d : ExtendibleHTableDirectoryPage) (bucket_idx : Nat) :
    Int :=
  d.bucket_page_ids_.getD bucket_idx 0

/-- `HashToPageId(hash)`. -/
def HashToPageId (d : ExtendibleHTableDirectoryPage) (hash : Nat) : Int :=
  d.GetBucketPageId (d.HashToBucketIndex hash)

/-- `SetBucketPageId(bucket_idx, bucket_page_id)`. -/
def SetBucketPageId (d : ExtendibleHTableDirectoryPage) (bucket_idx : Nat)
    (bucket_page_id : Int) : ExtendibleHTableDirectoryPage :=
  { d with bucket_page_ids_ := d.bucket_page_ids_.set bucket_idx bucket_page_id }

/-- `GetLocalDepth(bucket_idx)`. -/
def GetLocalDepth (d : ExtendibleHTableDirectoryPage) (bucket_idx : Nat) :
    Nat :=
  d.local_depths_.getD bucket_idx 0

/-- `SetLocalDepth(bucket_idx, local_depth)`: the parameter is a `uint8_t`, so
the stored value is truncated mod 256. -/
def SetLocalDepth (d : ExtendibleHTableDirectoryPage) (bucket_idx : Nat)
    (local_depth : Nat) : ExtendibleHTableDirectoryPage :=
  { d with local_depths_ := d.local_depths_.set bucket_idx (local_depth % 256) }

/-- `GetSplitImageIndex(bucket_idx)` = `(1 << (local_depth - 1)) ^ bucket_idx`
(the C++ shift is undefined for `local_depth = 0`; the `Nat` subtraction
truncates there, and the claim about this function restricts itself to
`local_depth ≥ 1`). -/
def GetSplitImageIndex (d : ExtendibleHTableDirectoryPage) (bucket_idx : Nat) :
    Nat :=
  (1 <<< (d.GetLocalDepth bucket_idx - 1)) ^^^ bucket_idx

/-- `GetGlobalDepth()`. -/
def GetGlobalDepth (d : ExtendibleHTableDirectoryPage) : Nat := d.global_depth_

/-- `IncrGlobalDepth()`: bump the depth, then mirror the lower half into the
newly counted upper half. -/
def IncrGlobalDepth (d : ExtendibleHTableDirectoryPage) :
    ExtendibleHTableDirectoryPage :=
  let old_size := d.Size
  let d1 : ExtendibleHTableDirectoryPage :=
    { d with global_depth_ := d.global_depth_ + 1 }
  let new_size := d1.Size
  (List.range' old_size (new_size - old_size)).foldl
    (fun e i =>
      { e with
        local_depths_ := e.local_depths_.set i
          (e.local_depths_.getD (i - old_size) 0),
        bucket_page_ids_ := e.bucket_page_ids_.set i
          (e.bucket_page_ids_.getD (i - old_size) 0) })
    d1

/-- `DecrGlobalDepth()` (the `uint32` decrement underflows at depth 0 in C++;
`Nat` subtraction truncates instead, and no caller reaches it at depth 0). -/
def DecrGlobalDepth (d : ExtendibleHTableDirectoryPage) :
    ExtendibleHTableDirectoryPage :=
  { d with global_depth_ := d.global_depth_ - 1 }

/-- `CanShrink()`: no counted slot has `local_depth == global_depth_`. -/
def CanShrink (d : ExtendibleHTableDirectoryPage) : Bool :=
  (List.range d.Size).all fun i => !(d.GetLocalDepth i == d.global_depth_)

end ExtendibleHTableDirectoryPage

/-- A concrete directory at global depth 1: slot 0 → bucket page 3, slot 1 →
bucket page 4, both at local depth 1. -/
def dirDepthOne : ExtendibleHTableDirectoryPage :=
  { max_depth_ := 3, global_depth_ := 1,
    local_depths_ := [1, 1], bucket_page_ids_ := [3, 4] }

/-- C4: for every directory state and every slot whose local depth is at least
1, `GetSplitImageIndex(bucket_idx)` equals
`bucket_idx XOR (1 << (local_depth[bucket_idx] - 1))`. -/
theorem getSplitImageIndex_eq_xor (d : ExtendibleHTableDirectoryPage)
    (bucket_idx : Nat) (_h : 1 ≤ d.GetLocalDepth bucket_idx) :
    d.GetSplitImageIndex bucket_idx =
      bucket_idx ^^^ (1 <<< (d.GetLocalDepth bucket_idx - 1)) :=
  Nat.xor_comm _ _

/-- Witness for C4: slot 1 of `dirDepthOne` has local depth 1 and split image
`1 XOR 1 = 0`. -/
theorem getSplitImageIndex_eq_xor_witness :
    1 ≤ dirDepthOne.GetLocalDepth 1 ∧
      dirDepthOne.GetSplitImageIndex 1 =
        1 ^^^ (1 <<< (dirDepthOne.GetLocalDepth 1 - 1)) :=
  ⟨by decide, getSplitImageIndex_eq_xor dirDepthOne 1 (by decide)⟩

/-! ## Directory remapping after a split
(`DiskExtendibleHashTable::UpdateDirectoryMapping`,
`src/src/container/disk/hash/disk_extendible_hash_table.cpp` lines 230-271) -/

/-- One iteration of the remapping loop: slot `idx` is rewritten using its own
pre-iteration local depth and the values captured before the loop
(`old_tidx`, `new_tidx`, `local_depth_mask`, `change`). -/
def udmStep (old_tidx new_tidx local_depth_mask : Nat)
    (new_bucket_page_id : Int) (new_local_depth : Nat) (change : Int)
    (d : ExtendibleHTableDirectoryPage) (idx : Nat) :
    ExtendibleHTableDirectoryPage :=
  let local_depth := d.GetLocalDepth idx
  let i_mask : Nat := (1 <<< local_depth) - 1
  if old_tidx = idx &&& i_mask ∧ new_tidx = idx &&& local_depth_mask then
    (d.SetLocalDepth idx new_local_depth).SetBucketPageId idx new_bucket_page_id
  else if old_tidx = idx &&& i_mask then
    d.SetLocalDepth idx ((((local_depth : Int) + change) % 256)).toNat
  else d

/-- The loop of `UpdateDirectoryMapping`, unrolled over the first `n` slots. -/
def udmIter (old_tidx new_tidx local_depth_mask : Nat)
    (new_bucket_page_id : Int) (new_local_depth : Nat) (change : Int)
    (d : ExtendibleHTableDirectoryPage) (n : Nat) :
    ExtendibleHTableDirectoryPage :=
  (List.range n).foldl
    (udmStep old_tidx new_tidx local_depth_mask new_bucket_page_id
      new_local_depth change) d

/-- `DiskExtendibleHashTable::UpdateDirectoryMapping(directory,
new_bucket_idx, new_bucket_page_id, new_local_depth, local_depth_mask)`.  The
`uint32` arithmetic `local_depth + change` followed by the implicit `uint8_t`
parameter conversion of `SetLocalDepth` is a truncation mod 256 of the signed
sum; the body writes only slot `idx` and never changes the global depth, so
iterating over the initially counted `directory.Size()` slots matches the
source loop. -/
def UpdateDirectoryMapping (directory : ExtendibleHTableDirectoryPage)
    (new_bucket_idx : Nat) (new_bucket_page_id : Int) (new_local_depth : Nat)
    (local_depth_mask : Nat) : ExtendibleHTableDirectoryPage :=
  let old_local_depth := directory.GetLocalDepth new_bucket_idx
  let old_local_depth_mask : Nat := (1 <<< old_local_depth) - 1
  let change : Int := (new_local_depth : Int) - (old_local_depth : Int)
  let new_tidx := new_bucket_idx &&& local_depth_mask
  let old_tidx := new_bucket_idx &&& old_local_depth_mask
  udmIter old_tidx new_tidx local_depth_mask new_bucket_page_id
    new_local_depth change directory directory.Size

/-- The per-slot effect of one remapping iteration on that slot's local
depth. -/
def udmSlotDepth (old_tidx new_tidx local_depth_mask new_local_depth : Nat)
    (change : Int) (j ld : Nat) : Nat :=
  if old_tidx = j &&& ((1 <<< ld) - 1) ∧
      new_tidx = j &&& local_depth_mask then
    new_local_depth % 256
  else if old_tidx = j &&& ((1 <<< ld) - 1) then
    ((((ld : Int) + change) % 256)).toNat % 256
  else ld

/-- The per-slot effect of one remapping iteration on that slot's bucket page
id. -/
def udmSlotPid (old_tidx new_tidx local_depth_mask : Nat)
    (new_bucket_page_id : Int) (j ld : Nat) (bp : Int) : Int :=
  if old_tidx = j &&& ((1 <<< ld) - 1) ∧
      new_tidx = j &&& local_depth_mask then
    new_bucket_page_id
  else bp

theorem udmStep_meta (ot nt ldm : Nat) (pid : Int) (nld : Nat) (ch : Int)
    (d : ExtendibleHTableDirectoryPage) (idx : Nat) :
    (udmStep ot nt ldm pid nld ch d idx).global_depth_ = d.global_depth_ ∧
    (udmStep ot nt ldm pid nld ch d idx).local_depths_.length
      = d.local_depths_.length ∧
    (udmStep ot nt ldm pid nld ch d idx).bucket_page_ids_.length
      = d.bucket_page_ids_.length := by
  unfold udmStep
  dsimp only
  split_ifs <;>
    simp [ExtendibleHTableDirectoryPage.SetLocalDepth,
      ExtendibleHTableDirectoryPage.SetBucketPageId]

theorem udmStep_other (ot nt ldm : Nat) (pid : Int) (nld : Nat) (ch : Int)
    (d : ExtendibleHTableDirectoryPage) (idx j : Nat) (h : idx ≠ j) :
    (udmStep ot nt ldm pid nld ch d idx).GetLocalDepth j = d.GetLocalDepth j ∧
    (udmStep ot nt ldm pid nld ch d idx).GetBucketPageId j
      = d.GetBucketPageId j := by
  unfold udmStep
  dsimp only
  split_ifs <;>
    simp [ExtendibleHTableDirectoryPage.SetLocalDepth,
      ExtendibleHTableDirectoryPage.SetBucketPageId,
      ExtendibleHTableDirectoryPage.GetLocalDepth,
      ExtendibleHTableDirectoryPage.GetBucketPageId,
      List.getD, List.getElem?_set_ne h]

theorem udmStep_self (ot nt ldm : Nat) (pid : Int) (nld : Nat) (ch : Int)
    (d : ExtendibleHTableDirectoryPage) (idx : Nat)
    (h1 : idx < d.local_depths_.length)
    (h2 : idx < d.bucket_page_ids_.length) :
    (udmStep ot nt ldm pid nld ch d idx).GetLocalDepth idx
      = udmSlotDepth ot nt ldm nld ch idx (d.GetLocalDepth idx) ∧
    (udmStep ot nt ldm pid nld ch d idx).GetBucketPageId idx
      = udmSlotPid ot nt ldm pid idx (d.GetLocalDepth idx)
          (d.GetBucketPageId idx) := by
  unfold udmStep udmSlotDepth udmSlotPid
  dsimp only
  split_ifs <;>
    simp [ExtendibleHTableDirectoryPage.SetLocalDepth,
      ExtendibleHTableDirectoryPage.SetBucketPageId,
      ExtendibleHTableDirectoryPage.GetLocalDepth,
      ExtendibleHTableDirectoryPage.GetBucketPageId,
      List.getD, List.getElem?_set_eq_of_lt _ h1,
      List.getElem?_set_eq_of_lt _ h2]

theorem udmIter_spec (ot nt ldm : Nat) (pid : Int) (nld : Nat) (ch : Int)
    (d0 : ExtendibleHTableDirectoryPage) :
    ∀ n : Nat,
      (udmIter ot nt ldm pid nld ch d0 n).global_depth_ = d0.global_depth_ ∧
      (udmIter ot nt ldm pid nld ch d0 n).local_depths_.length
        = d0.local_depths_.length ∧
      (udmIter ot nt ldm pid nld ch d0 n).bucket_page_ids_.length
        = d0.bucket_page_ids_.length ∧
      (∀ j, n ≤ j →
        (udmIter ot nt ldm pid nld ch d0 n).GetLocalDepth j
          = d0.GetLocalDepth j ∧
        (udmIter ot nt ldm pid nld ch d0 n).GetBucketPageId j
          = d0.GetBucketPageId j) ∧
      (∀ j, j < n → j < d0.local_depths_.length →
        j < d0.bucket_page_ids_.length →
        (udmIter ot nt ldm pid nld ch d0 n).GetLocalDepth j
          = udmSlotDepth ot nt ldm nld ch j (d0.GetLocalDepth j) ∧
        (udmIter ot nt ldm pid nld ch d0 n).GetBucketPageId j
          = udmSlotPid ot nt ldm pid j (d0.GetLocalDepth j)
              (d0.GetBucketPageId j)) := by
  intro n
  induction n with
  | zero =>
    refine ⟨rfl, rfl, rfl, fun j _ => ⟨rfl, rfl⟩, fun j hj _ _ => ?_⟩
    exact absurd hj (Nat.not_lt_zero j)
  | succ n ih =>
    obtain ⟨ihg, ihl, ihb, ihhigh, ihlow⟩ := ih
    have hstep : udmIter ot nt ldm pid nld ch d0 (n + 1)
        = udmStep ot nt ldm pid nld ch (udmIter ot nt ldm pid nld ch d0 n) n := by
      unfold udmIter
      rw [List.range_succ, List.foldl_append, List.foldl_cons, List.foldl_nil]
    obtain ⟨hmg, hml, hmb⟩ :=
      udmStep_meta ot nt ldm pid nld ch (udmIter ot nt ldm pid nld ch d0 n) n
    refine ⟨?_, ?_, ?_, ?_, ?_⟩
    · rw [hstep, hmg, ihg]
    · rw [hstep, hml, ihl]
    · rw [hstep, hmb, ihb]
    · intro j hj
      have hne : n ≠ j := by omega
      obtain ⟨ho1, ho2⟩ := udmStep_other ot nt ldm pid nld ch
        (udmIter ot nt ldm pid nld ch d0 n) n j hne
      obtain ⟨hh1, hh2⟩ := ihhigh j (by omega)
      rw [hstep, ho1, ho2, hh1, hh2]
      exact ⟨rfl, rfl⟩
    · intro j hj hjl hjb
      rcases Nat.lt_or_ge j n with hlt | hge
      · have hne : n ≠ j := by omega
        obtain ⟨ho1, ho2⟩ := udmStep_other ot nt ldm pid nld ch
          (udmIter ot nt ldm pid nld ch d0 n) n j hne
        obtain ⟨hl1, hl2⟩ := ihlow j hlt hjl hjb
        rw [hstep, ho1, ho2, hl1, hl2]
        exact ⟨rfl, rfl⟩
      · have hjn : j = n := by omega
        subst hjn
        obtain ⟨hh1, hh2⟩ := ihhigh j (le_refl j)
        obtain ⟨hs1, hs2⟩ := udmStep_self ot nt ldm pid nld ch
          (udmIter ot nt ldm pid nld ch d0 j) j (by omega) (by omega)
        rw [hstep, hs1, hs2, hh1, hh2]
        exact ⟨rfl, rfl⟩

/-- Well-formedness of a directory state as found at every split: the counted
slots fit in the backing arrays, and any two counted slots that agree on one
of their local-depth prefixes share that local depth (slots pointing to one
bucket carry equal depths). -/
def WellFormedDir (d : ExtendibleHTableDirectoryPage) : Prop :=
  d.Size ≤ d.local_depths_.length ∧ d.Size ≤ d.bucket_page_ids_.length ∧
  ∀ i, i < d.Size → ∀ j, j < d.Size →
    i &&& ((1 <<< d.GetLocalDepth j) - 1)
      = j &&& ((1 <<< d.GetLocalDepth j) - 1) →
    d.GetLocalDepth i = d.GetLocalDepth j

instance (d : ExtendibleHTableDirectoryPage) : Decidable (WellFormedDir d) := by
  unfold WellFormedDir
  infer_instance

/-- Under `WellFormedDir`, the loop's test `old_tidx == (idx & i_mask)` —
which masks slot `i` with its own local depth — agrees with the spec's test
`i & old_mask == changed & old_mask`, which masks both sides with the changed
slot's pre-split depth. -/
theorem udm_cond_iff (d : ExtendibleHTableDirectoryPage)
    (hwf4 : ∀ i, i < d.Size → ∀ j, j < d.Size →
      i &&& ((1 <<< d.GetLocalDepth j) - 1)
        = j &&& ((1 <<< d.GetLocalDepth j) - 1) →
      d.GetLocalDepth i = d.GetLocalDepth j)
    (changed i : Nat) (hch : changed < d.Size) (hi : i < d.Size) :
    (changed &&& ((1 <<< d.GetLocalDepth changed) - 1)
        = i &&& ((1 <<< d.GetLocalDepth i) - 1)) ↔
    (i &&& ((1 <<< d.GetLocalDepth changed) - 1)
        = changed &&& ((1 <<< d.GetLocalDepth changed) - 1)) := by
  have hmod : ∀ x m : Nat, x &&& ((1 <<< m) - 1) = x % 2 ^ m := by
    intro x m
    rw [Nat.one_shiftLeft]
    exact Nat.and_pow_two_sub_one_eq_mod x m
  constructor
  · intro hcode
    rw [hmod, hmod] at hcode
    rw [hmod, hmod]
    rcases Nat.lt_trichotomy (d.GetLocalDepth i) (d.GetLocalDepth changed)
      with hlt | heq | hgt
    · -- slot i's depth is smaller: well-formedness forces equality, absurd
      exfalso
      have hsmall : changed % 2 ^ d.GetLocalDepth changed
          < 2 ^ d.GetLocalDepth i := by
        rw [hcode]
        exact Nat.mod_lt _ (Nat.pos_pow_of_pos _ (by norm_num))
      have hshare : changed &&& ((1 <<< d.GetLocalDepth i) - 1)
          = i &&& ((1 <<< d.GetLocalDepth i) - 1) := by
        rw [hmod, hmod]
        calc changed % 2 ^ d.GetLocalDepth i
            = changed % 2 ^ d.GetLocalDepth changed % 2 ^ d.GetLocalDepth i :=
              (Nat.mod_mod_of_dvd changed (pow_dvd_pow 2 hlt.le)).symm
          _ = changed % 2 ^ d.GetLocalDepth changed :=
              Nat.mod_eq_of_lt hsmall
          _ = i % 2 ^ d.GetLocalDepth i := hcode
      have := hwf4 changed hch i hi hshare
      omega
    · rw [heq] at hcode
      exact hcode.symm
    · calc i % 2 ^ d.GetLocalDepth changed
          = i % 2 ^ d.GetLocalDepth i % 2 ^ d.GetLocalDepth changed :=
            (Nat.mod_mod_of_dvd i (pow_dvd_pow 2 hgt.le)).symm
        _ = changed % 2 ^ d.GetLocalDepth changed % 2 ^ d.GetLocalDepth changed
            := by rw [← hcode]
        _ = changed % 2 ^ d.GetLocalDepth changed :=
            Nat.mod_mod_of_dvd changed dvd_rfl
  · intro hclaim
    have hldeq := hwf4 i hi changed hch hclaim
    rw [hmod, hmod, hldeq]
    rw [hmod, hmod] at hclaim
    exact hclaim.symm

/-- C1: after a bucket split, `UpdateDirectoryMapping` rewrites every counted
directory slot `i` exactly as the spec describes, with `old_mask` derived from
the changed slot's local depth before the split: slots sharing the old prefix
and landing on the new bucket's side get the new bucket page id and the new
local depth; slots merely sharing the old prefix keep their bucket page id and
have their local depth raised by the same delta as the changed slot; all other
slots are untouched.  This covers all slots in `[0, 2^global_depth)`,
including mirrored slots introduced by a prior `IncrGlobalDepth`. -/
theorem updateDirectoryMapping_slots (d : ExtendibleHTableDirectoryPage)
    (new_bucket_idx : Nat) (new_bucket_page_id : Int)
    (new_local_depth local_depth_mask : Nat)
    (hwf : WellFormedDir d)
    (hch : new_bucket_idx < d.Size)
    (_hmask : local_depth_mask = (1 <<< new_local_depth) - 1)
    (hle : d.GetLocalDepth new_bucket_idx ≤ new_local_depth)
    (h256 : new_local_depth < 256) :
    ∀ i, i < d.Size →
      ((i &&& ((1 <<< d.GetLocalDepth new_bucket_idx) - 1)
            = new_bucket_idx &&& ((1 <<< d.GetLocalDepth new_bucket_idx) - 1) ∧
        i &&& local_depth_mask = new_bucket_idx &&& local_depth_mask) →
        (UpdateDirectoryMapping d new_bucket_idx new_bucket_page_id
            new_local_depth local_depth_mask).GetBucketPageId i
          = new_bucket_page_id ∧
        (UpdateDirectoryMapping d new_bucket_idx new_bucket_page_id
            new_local_depth local_depth_mask).GetLocalDepth i
          = new_local_depth) ∧
      ((i &&& ((1 <<< d.GetLocalDepth new_bucket_idx) - 1)
            = new_bucket_idx &&& ((1 <<< d.GetLocalDepth new_bucket_idx) - 1) ∧
        ¬ i &&& local_depth_mask = new_bucket_idx &&& local_depth_mask) →
        (UpdateDirectoryMapping d new_bucket_idx new_bucket_page_id
            new_local_depth local_depth_mask).GetBucketPageId i
          = d.GetBucketPageId i ∧
        (UpdateDirectoryMapping d new_bucket_idx new_bucket_page_id
            new_local_depth local_depth_mask).GetLocalDepth i
          = d.GetLocalDepth i
            + (new_local_depth - d.GetLocalDepth new_bucket_idx)) ∧
      (¬ i &&& ((1 <<< d.GetLocalDepth new_bucket_idx) - 1)
            = new_bucket_idx &&& ((1 <<< d.GetLocalDepth new_bucket_idx) - 1) →
        (UpdateDirectoryMapping d new_bucket_idx new_bucket_page_id
            new_local_depth local_depth_mask).GetBucketPageId i
          = d.GetBucketPageId i ∧
        (UpdateDirectoryMapping d new_bucket_idx new_bucket_page_id
            new_local_depth local_depth_mask).GetLocalDepth i
          = d.GetLocalDepth i) := by
  obtain ⟨hlen1, hlen2, hwf4⟩ := hwf
  intro i hi
  have hspec := (udmIter_spec
    (new_bucket_idx &&& ((1 <<< d.GetLocalDepth new_bucket_idx) - 1))
    (new_bucket_idx &&& local_depth_mask) local_depth_mask
    new_bucket_page_id new_local_depth
    ((new_local_depth : Int) - (d.GetLocalDepth new_bucket_idx : Int))
    d d.Size).2.2.2.2 i hi (lt_of_lt_of_le hi hlen1) (lt_of_lt_of_le hi hlen2)
  have hUDM : UpdateDirectoryMapping d new_bucket_idx new_bucket_page_id
      new_local_depth local_depth_mask
      = udmIter
        (new_bucket_idx &&& ((1 <<< d.GetLocalDepth new_bucket_idx) - 1))
        (new_bucket_idx &&& local_depth_mask) local_depth_mask
        new_bucket_page_id new_local_depth
        ((new_local_depth : Int) - (d.GetLocalDepth new_bucket_idx : Int))
        d d.Size := rfl
  obtain ⟨hld, hpd⟩ := hspec
  rw [hUDM]
  have hiff := udm_cond_iff d hwf4 new_bucket_idx i hch hi
  refine ⟨?_, ?_, ?_⟩
  · rintro ⟨hshare, hnew⟩
    rw [hld, hpd]
    unfold udmSlotDepth udmSlotPid
    rw [if_pos ⟨hiff.2 hshare, hnew.symm⟩, if_pos ⟨hiff.2 hshare, hnew.symm⟩]
    exact ⟨rfl, Nat.mod_eq_of_lt h256⟩
  · rintro ⟨hshare, hnew⟩
    have hcond1 : ¬(new_bucket_idx
          &&& ((1 <<< d.GetLocalDepth new_bucket_idx) - 1)
            = i &&& ((1 <<< d.GetLocalDepth i) - 1) ∧
        new_bucket_idx &&& local_depth_mask = i &&& local_depth_mask) := by
      rintro ⟨-, hn⟩
      exact hnew hn.symm
    have hldeq := hwf4 i hi new_bucket_idx hch hshare
    rw [hld, hpd]
    unfold udmSlotDepth udmSlotPid
    rw [if_neg hcond1, if_neg hcond1, if_pos (hiff.2 hshare)]
    refine ⟨rfl, ?_⟩
    have hsum : ((d.GetLocalDepth i : Int)
        + ((new_local_depth : Int) - (d.GetLocalDepth new_bucket_idx : Int)))
        = (new_local_depth : Int) := by
      rw [hldeq]
      ring
    rw [hsum]
    rw [Int.emod_eq_of_lt (Int.natCast_nonneg _) (by exact_mod_cast h256)]
    rw [Int.toNat_natCast, Nat.mod_eq_of_lt h256]
    omega
  · intro hshare
    have hcond : ¬(new_bucket_idx
        &&& ((1 <<< d.GetLocalDepth new_bucket_idx) - 1)
          = i &&& ((1 <<< d.GetLocalDepth i) - 1)) := by
      intro hc
      exact hshare (hiff.1 hc)
    rw [hld, hpd]
    unfold udmSlotDepth udmSlotPid
    rw [if_neg (fun hc => hcond hc.1), if_neg (fun hc => hcond hc.1),
      if_neg hcond]
    exact ⟨rfl, rfl⟩

/-- A well-formed directory at global depth 2 with two buckets of local depth
1: page 3 at slots 0 and 2, page 4 at slots 1 and 3. -/
def dirGd2 : ExtendibleHTableDirectoryPage :=
  { max_depth_ := 3, global_depth_ := 2,
    local_depths_ := [1, 1, 1, 1], bucket_page_ids_ := [3, 4, 3, 4] }

/-- Witness for C1: splitting slot 1 of `dirGd2` to local depth 2 with new
bucket page 9 rewrites slot 1 to the new bucket at depth 2, bumps slot 3's
depth by the same delta while keeping page 4, and leaves slot 0 untouched. -/
theorem updateDirectoryMapping_slots_witness :
    ((UpdateDirectoryMapping dirGd2 1 9 2 3).GetBucketPageId 1 = 9 ∧
      (UpdateDirectoryMapping dirGd2 1 9 2 3).GetLocalDepth 1 = 2) ∧
    ((UpdateDirectoryMapping dirGd2 1 9 2 3).GetBucketPageId 3
        = dirGd2.GetBucketPageId 3 ∧
      (UpdateDirectoryMapping dirGd2 1 9 2 3).GetLocalDepth 3
        = dirGd2.GetLocalDepth 3 + (2 - dirGd2.GetLocalDepth 1)) ∧
    ((UpdateDirectoryMapping dirGd2 1 9 2 3).GetBucketPageId 0
        = dirGd2.GetBucketPageId 0 ∧
      (UpdateDirectoryMapping dirGd2 1 9 2 3).GetLocalDepth 0
        = dirGd2.GetLocalDepth 0) :=
  ⟨(updateDirectoryMapping_slots dirGd2 1 9 2 3 (by decide) (by decide)
      (by decide) (by decide) (by decide) 1 (by decide)).1
      ⟨by decide, by decide⟩,
   (updateDirectoryMapping_slots dirGd2 1 9 2 3 (by decide) (by decide)
      (by decide) (by decide) (by decide) 3 (by decide)).2.1
      ⟨by decide, by decide⟩,
   (updateDirectoryMapping_slots dirGd2 1 9 2 3 (by decide) (by decide)
      (by decide) (by decide) (by decide) 0 (by decide)).2.2
      (by decide)⟩

/-! ## Buffer pool manager (`src/src/buffer/buffer_pool_manager.cpp`) -/

/-- Metadata of one pool frame (class `Page`): current page id
(`INVALID_PAGE_ID = -1` when free), pin count, dirty flag.  The byte contents
are not modelled: disk reads/writes move bytes only and leave this metadata
untouched. -/
structure Page where
  page_id_ : Int
  pin_count_ : Nat
  is_dirty_ : Bool
deriving Repr, DecidableEq

/-- `BufferPoolManager` state: the frame array, the `page_id → frame_id` map
(`std::unordered_map`, modelled as an association list), the free list, the
LRU-K replacer and the page-id allocator counter. -/
structure BufferPoolManager where
  pool_size_ : Nat
  pages_ : List Page
  page_table_ : List (Int × Int)
  free_list_ : List Int
  replacer_ : LRUKReplacer
  next_page_id_ : Int
deriving Repr, DecidableEq

/-- `pages_[frame_id]` (indexing past the array is undefined in C++; the model
returns a free-frame default there, which no reachable call does). -/
def getPage (bpm : BufferPoolManager) (frame_id : Int) : Page :=
  bpm.pages_.getD frame_id.toNat ⟨-1, 0, false⟩

/-- `std::unordered_map::emplace`: inserts only when the key is absent. -/
def assocEmplace {α : Type} (l : List (Int × α)) (key : Int) (v : α) :
    List (Int × α) :=
  match assocFind l key with
  | some _ => l
  | none => l ++ [(key, v)]

namespace BufferPoolManager

/-- The shared frame-acquisition step of `NewPage`/`FetchPage`: pop the free
list, else ask the replacer for a victim (whose junk-victim behaviour is
modelled in `LRUKReplacer.Evict`). -/
def acquireFrame (bpm : BufferPoolManager) (junkStamp : Nat) (junkFid : Int) :
    Option Int × BufferPoolManager :=
  match bpm.free_list_ with
  | f :: rest => (some f, { bpm with free_list_ := rest })
  | [] =>
    match bpm.replacer_.Evict junkStamp junkFid with
    | (none, rep) => (none, { bpm with replacer_ := rep })
    | (some f, rep) => (some f, { bpm with replacer_ := rep })

/-- `BufferPoolManager::NewPage`: returns `(new page id, frame)` on success,
`(none, ·)` when the pool is exhausted (C++ `nullptr`); the outer `Option` is
an exception escaping from the replacer calls.  Flushing a dirty victim only
moves bytes; the metadata effects are the mapping swap and the field reset. -/
def NewPage (bpm : BufferPoolManager) (junkStamp : Nat) (junkFid : Int) :
    Option (Option (Int × Int) × BufferPoolManager) :=
  match acquireFrame bpm junkStamp junkFid with
  | (none, bpm1) => some (none, bpm1)
  | (some f, bpm1) =>
    let next_id := bpm1.next_page_id_
    let bpm2 := { bpm1 with next_page_id_ := bpm1.next_page_id_ + 1 }
    let page := getPage bpm2 f
    let table2 := assocEmplace (assocErase bpm2.page_table_ page.page_id_)
      next_id f
    let pages2 := bpm2.pages_.set f.toNat
      { page_id_ := next_id, pin_count_ := 1, is_dirty_ := false }
    match bpm2.replacer_.RecordAccess f with
    | none => none
    | some rep1 =>
      match rep1.SetEvictable f false with
      | none => none
      | some rep2 =>
        some (some (next_id, f),
          { bpm2 with
            page_table_ := table2
            pages_ := pages2
            replacer_ := rep2 })

/-- `BufferPoolManager::FetchPage`: on a hit, bump the pin count and pin the
frame in the replacer — no access is recorded; on a miss, acquire a frame,
swap the mapping, schedule the read (bytes only) and record one access. -/
def FetchPage (bpm : BufferPoolManager) (page_id : Int) (junkStamp : Nat)
    (junkFid : Int) : Option (Option Int × BufferPoolManager) :=
  match assocFind bpm.page_table_ page_id with
  | some frame_id =>
    let page := getPage bpm frame_id
    match bpm.replacer_.SetEvictable frame_id false with
    | none => none
    | some rep =>
      some (some frame_id,
        { bpm with
          pages_ := bpm.pages_.set frame_id.toNat
            { page with pin_count_ := page.pin_count_ + 1 },
          replacer_ := rep })
  | none =>
    match acquireFrame bpm junkStamp junkFid with
    | (none, bpm1) => some (none, bpm1)
    | (some f, bpm1) =>
      let page := getPage bpm1 f
      let table2 := assocEmplace (assocErase bpm1.page_table_ page.page_id_)
        page_id f
      let pages2 := bpm1.pages_.set f.toNat
        { page_id_ := page_id, pin_count_ := 1, is_dirty_ := false }
      match bpm1.replacer_.RecordAccess f with
      | none => none
      | some rep1 =>
        match rep1.SetEvictable f false with
        | none => none
        | some rep2 =>
          some (some f,
            { bpm1 with
              page_table_ := table2
              pages_ := pages2
              replacer_ := rep2 })

/-- `BufferPoolManager::UnpinPage`: decrement the pin count (failing on an
unmapped or already-unpinned page), make the frame evictable at zero pins,
then assign — not OR — the dirty flag. -/
def UnpinPage (bpm : BufferPoolManager) (page_id : Int) (is_dirty : Bool) :
    Option (Bool × BufferPoolManager) :=
  match assocFind bpm.page_table_ page_id with
  | none => some (false, bpm)
  | some frame_id =>
    let page := getPage bpm frame_id
    if page.pin_count_ = 0 then some (false, bpm)
    else
      let newPin := page.pin_count_ - 1
      let step1 : Option LRUKReplacer :=
        if newPin = 0 then bpm.replacer_.SetEvictable frame_id true
        else some bpm.replacer_
      match step1 with
      | none => none
      | some rep =>
        some (true,
          { bpm with
            replacer_ := rep,
            pages_ := bpm.pages_.set frame_id.toNat
              { page with pin_count_ := newPin, is_dirty_ := is_dirty } })

/-- `BufferPoolManager::FlushPage`: write back (bytes only) and clear the
dirty flag; fails if the page is not resident. -/
def FlushPage (bpm : BufferPoolManager) (page_id : Int) :
    Bool × BufferPoolManager :=
  match assocFind bpm.page_table_ page_id with
  | none => (false, bpm)
  | some frame_id =>
    let page := getPage bpm frame_id
    (true,
      { bpm with
        pages_ := bpm.pages_.set frame_id.toNat
          { page with is_dirty_ := false } })

/-- `BufferPoolManager::FlushAllPages`: clear every mapped frame's dirty
flag. -/
def FlushAllPages (bpm : BufferPoolManager) : BufferPoolManager :=
  bpm.page_table_.foldl
    (fun b p =>
      { b with
        pages_ := b.pages_.set p.2.toNat
          { getPage b p.2 with is_dirty_ := false } })
    bpm

/-- `BufferPoolManager::DeletePage`: fails on a pinned page, else unmaps,
frees the frame, resets the metadata. -/
def DeletePage (bpm : BufferPoolManager) (page_id : Int) :
    Option (Bool × BufferPoolManager) :=
  match assocFind bpm.page_table_ page_id with
  | none => some (false, bpm)
  | some frame_id =>
    let page := getPage bpm frame_id
    if page.pin_count_ ≠ 0 then some (false, bpm)
    else
      match bpm.replacer_.Remove frame_id with
      | none => none
      | some rep =>
        some (true,
          { bpm with
            page_table_ := assocErase bpm.page_table_ page_id,
            replacer_ := rep,
            free_list_ := bpm.free_list_ ++ [frame_id],
            pages_ := bpm.pages_.set frame_id.toNat ⟨-1, 0, false⟩ })

end BufferPoolManager

/-! ### Page guards (`src/src/storage/page/page_guard.cpp`) and the
guard-producing wrappers (`src/src/buffer/buffer_pool_manager.cpp` lines
256-262) -/

/-- `BasicPageGuard`: the wrapped `Page*` is `none` for `nullptr`, otherwise
the frame id it points into. -/
structure BasicPageGuard where
  page_ : Option Int
  is_dirty_ : Bool
deriving Repr, DecidableEq

/-- `ReadPageGuard` wraps a `BasicPageGuard`. -/
structure ReadPageGuard where
  guard_ : BasicPageGuard
deriving Repr, DecidableEq

/-- `WritePageGuard` wraps a `BasicPageGuard`. -/
structure WritePageGuard where
  guard_ : BasicPageGuard
deriving Repr, DecidableEq

/-- `BufferPoolManager::FetchPageBasic` as implemented:
`return {this, nullptr};` — no fetch, no pin, pool untouched. -/
def FetchPageBasic (bpm : BufferPoolManager) (_page_id : Int) :
    BasicPageGuard × BufferPoolManager :=
  (⟨none, false⟩, bpm)

/-- `BufferPoolManager::FetchPageRead` as implemented:
`return {this, nullptr};`. -/
def FetchPageRead (bpm : BufferPoolManager) (_page_id : Int) :
    ReadPageGuard × BufferPoolManager :=
  (⟨⟨none, false⟩⟩, bpm)

/-- `BufferPoolManager::FetchPageWrite` as implemented:
`return {this, nullptr};`. -/
def FetchPageWrite (bpm : BufferPoolManager) (_page_id : Int) :
    WritePageGuard × BufferPoolManager :=
  (⟨⟨none, false⟩⟩, bpm)

/-- `BufferPoolManager::NewPageGuarded` as implemented:
`return {this, nullptr};` — the out-parameter `page_id` is never written and
no page is allocated. -/
def NewPageGuarded (bpm : BufferPoolManager) :
    BasicPageGuard × BufferPoolManager :=
  (⟨none, false⟩, bpm)

/-- A pool with page 5 resident in frame 0, pinned once and dirty; frame 1 is
free; frame 0 is tracked (non-evictable) by the replacer. -/
def bpmDirty : BufferPoolManager :=
  { pool_size_ := 2
    pages_ := [⟨5, 1, true⟩, ⟨-1, 0, false⟩]
    page_table_ := [(5, 0)]
    free_list_ := [1]
    replacer_ :=
      { node_store_ := [(0, ⟨[0], false⟩)]
        current_timestamp_ := 1
        curr_size_ := 0
        replacer_size_ := 2
        k_ := 2 }
    next_page_id_ := 6 }

/-- C3: the guard-producing wrappers are unimplemented stubs: each returns
`{this, nullptr}` — a guard owning no page, no pin and no latch — and leaves
the pool untouched, never performing the fetch/new step (here shown for every
pool state and page id; in particular no pin count changes even for a resident
page). -/
theorem fetchPageGuards_are_stubs :
    ∀ (bpm : BufferPoolManager) (page_id : Int),
      ((FetchPageBasic bpm page_id).1.page_ = none ∧
        (FetchPageBasic bpm page_id).2 = bpm) ∧
      ((FetchPageRead bpm page_id).1.guard_.page_ = none ∧
        (FetchPageRead bpm page_id).2 = bpm) ∧
      ((FetchPageWrite bpm page_id).1.guard_.page_ = none ∧
        (FetchPageWrite bpm page_id).2 = bpm) ∧
      ((NewPageGuarded bpm).1.page_ = none ∧ (NewPageGuarded bpm).2 = bpm) :=
  fun _ _ => ⟨⟨rfl, rfl⟩, ⟨rfl, rfl⟩, ⟨rfl, rfl⟩, ⟨rfl, rfl⟩⟩

/-- C8: unpinning a dirty resident page with `is_dirty = false` clears its
dirty flag — `UnpinPage` assigns the flag instead of OR-ing it, so the earlier
dirtying is lost without a flush. -/
theorem unpinPage_false_clears_dirty_flag :
    (getPage bpmDirty 0).is_dirty_ = true ∧
    (bpmDirty.UnpinPage 5 false).map Prod.fst = some true ∧
    (bpmDirty.UnpinPage 5 false).map (fun r => (getPage r.2 0).is_dirty_)
      = some false := by
  decide

theorem assocFind_assocUpsert_ne {α : Type} (l : List (Int × α))
    (key g : Int) (dflt : α) (f : α → α) (h : g ≠ key) :
    assocFind (assocUpsert l key dflt f) g = assocFind l g := by
  induction l with
  | nil => simp [assocFind, assocUpsert, Ne.symm h]
  | cons p rest ih =>
    obtain ⟨k, v⟩ := p
    by_cases hk : k = key
    · subst hk
      simp [assocFind, assocUpsert, Ne.symm h]
    · simp [assocFind, assocUpsert, hk, ih]

/-- `LRUKReplacer::SetEvictable` on a tracked frame: succeeds, touches no
history and no timestamp, and sets exactly that frame's evictable flag. -/
theorem setEvictable_found (r : LRUKReplacer) (fid : Int) (flag : Bool)
    (node : LRUKNode) (h : assocFind r.node_store_ fid = some node) :
    ∃ r', r.SetEvictable fid flag = some r' ∧
      r'.current_timestamp_ = r.current_timestamp_ ∧
      assocFind r'.node_store_ fid = some { node with is_evictable_ := flag } ∧
      (∀ g, g ≠ fid →
        assocFind r'.node_store_ g = assocFind r.node_store_ g) ∧
      (∀ g, (assocFind r'.node_store_ g).map LRUKNode.history_
        = (assocFind r.node_store_ g).map LRUKNode.history_) := by
  simp only [LRUKReplacer.SetEvictable, h]
  by_cases hev : node.GetEvictable = flag
  · rw [if_neg (by simp [hev])]
    refine ⟨r, rfl, rfl, ?_, fun g _ => rfl, fun g => rfl⟩
    rw [h]
    cases node
    simp_all [LRUKNode.GetEvictable]
  · rw [if_pos hev]
    refine ⟨_, rfl, rfl, ?_, ?_, ?_⟩
    · rw [assocFind_assocUpsert, h]
      cases node with
      | mk hist ev =>
        cases ev <;> cases flag <;>
          simp_all [LRUKNode.GetEvictable, LRUKNode.SetEvictable]
    · intro g hg
      exact assocFind_assocUpsert_ne _ _ _ _ _ hg
    · intro g
      by_cases hg : g = fid
      · subst hg
        rw [assocFind_assocUpsert, h]
        simp [LRUKNode.SetEvictable]
      · rw [assocFind_assocUpsert_ne _ _ _ _ _ hg]

/-- C10: `FetchPage` on a resident page records no access: the returned frame
is the mapped one, every frame's LRU-K history and the global timestamp are
untouched, and the only changes are the frame's pin count (incremented) and
its evictable flag (set false); the page table, free list and allocator are
unchanged, so history entries can only ever be appended on the install paths
(`NewPage`, or `FetchPage` on a miss, both of which call `RecordAccess`). -/
theorem fetchPage_resident_records_no_access (bpm : BufferPoolManager)
    (page_id frame_id : Int)
    (hhit : assocFind bpm.page_table_ page_id = some frame_id)
    (node : LRUKNode)
    (hnode : assocFind bpm.replacer_.node_store_ frame_id = some node)
    (hlen : frame_id.toNat < bpm.pages_.length)
    (junkStamp : Nat) (junkFid : Int) :
    ∃ bpm', bpm.FetchPage page_id junkStamp junkFid
        = some (some frame_id, bpm') ∧
      bpm'.replacer_.current_timestamp_ = bpm.replacer_.current_timestamp_ ∧
      (∀ g, (assocFind bpm'.replacer_.node_store_ g).map LRUKNode.history_
        = (assocFind bpm.replacer_.node_store_ g).map LRUKNode.history_) ∧
      assocFind bpm'.replacer_.node_store_ frame_id
        = some { node with is_evictable_ := false } ∧
      (∀ g, g ≠ frame_id → assocFind bpm'.replacer_.node_store_ g
        = assocFind bpm.replacer_.node_store_ g) ∧
      getPage bpm' frame_id
        = { getPage bpm frame_id with
            pin_count_ := (getPage bpm frame_id).pin_count_ + 1 } ∧
      (∀ j : Nat, j ≠ frame_id.toNat →
        bpm'.pages_.getD j ⟨-1, 0, false⟩ = bpm.pages_.getD j ⟨-1, 0, false⟩) ∧
      bpm'.page_table_ = bpm.page_table_ ∧
      bpm'.free_list_ = bpm.free_list_ ∧
      bpm'.next_page_id_ = bpm.next_page_id_ := by
  obtain ⟨r', hr', hts, hfid_node, hother, hhist⟩ :=
    setEvictable_found bpm.replacer_ frame_id false node hnode
  refine ⟨{ bpm with
      pages_ := bpm.pages_.set frame_id.toNat
        { getPage bpm frame_id with
          pin_count_ := (getPage bpm frame_id).pin_count_ + 1 }
      replacer_ := r' },
    ?_, hts, hhist, hfid_node, hother, ?_, ?_, rfl, rfl, rfl⟩
  · simp only [BufferPoolManager.FetchPage, hhit, hr']
  · show (bpm.pages_.set frame_id.toNat _).getD frame_id.toNat _ = _
    simp only [List.getD, List.get?_eq_getElem?]
    rw [List.getElem?_set_eq_of_lt _ hlen]
    rfl
  · intro j hj
    show (bpm.pages_.set frame_id.toNat _).getD j _ = _
    simp only [List.getD, List.get?_eq_getElem?]
    rw [List.getElem?_set_ne (Ne.symm hj)]

/-- Witness for C10 at a concrete input: fetching resident page 5 on
`bpmDirty` leaves the history of frame 0 and the clock unchanged and only
bumps the pin count. -/
theorem fetchPage_resident_records_no_access_witness :
    ∃ bpm', bpmDirty.FetchPage 5 0 0 = some (some 0, bpm') ∧
      bpm'.replacer_.current_timestamp_
        = bpmDirty.replacer_.current_timestamp_ ∧
      (∀ g, (assocFind bpm'.replacer_.node_store_ g).map LRUKNode.history_
        = (assocFind bpmDirty.replacer_.node_store_ g).map LRUKNode.history_) ∧
      assocFind bpm'.replacer_.node_store_ 0
        = some { (⟨[0], false⟩ : LRUKNode) with is_evictable_ := false } ∧
      (∀ g, g ≠ (0 : Int) → assocFind bpm'.replacer_.node_store_ g
        = assocFind bpmDirty.replacer_.node_store_ g) ∧
      getPage bpm' 0
        = { getPage bpmDirty 0 with
            pin_count_ := (getPage bpmDirty 0).pin_count_ + 1 } ∧
      (∀ j : Nat, j ≠ (0 : Int).toNat →
        bpm'.pages_.getD j ⟨-1, 0, false⟩
          = bpmDirty.pages_.getD j ⟨-1, 0, false⟩) ∧
      bpm'.page_table_ = bpmDirty.page_table_ ∧
      bpm'.free_list_ = bpmDirty.free_list_ ∧
      bpm'.next_page_id_ = bpmDirty.next_page_id_ :=
  fetchPage_resident_records_no_access bpmDirty 5 0 (by decide) ⟨[0], false⟩
    (by decide) (by decide) 0 0

/-! ## Disk extendible hash table
(`src/src/container/disk/hash/disk_extendible_hash_table.cpp`) -/

/-- Modelled from the spec: the header page implementation is not among the
source files (only its callers are).  Spec §6/§3: a fixed array mapping the
top `max_depth` bits of a key's hash to a directory page id (`-1` when
unallocated), with `HashToPageId`, `HashToDirectoryIndex` and
`SetDirectoryPageId`. -/
structure ExtendibleHTableHeaderPage where
  max_depth_ : Nat
  directory_page_ids_ : List Int
deriving Repr, DecidableEq

namespace ExtendibleHTableHeaderPage

/-- Modelled from the spec: the top `max_depth_` bits of the 32-bit hash. -/
def HashToDirectoryIndex (h : ExtendibleHTableHeaderPage) (hash : Nat) :
    Nat :=
  hash / 2 ^ (32 - h.max_depth_)

/-- Modelled from the spec: the directory page id stored at the hash's header
slot. -/
def HashToPageId (h : ExtendibleHTableHeaderPage) (hash : Nat) : Int :=
  h.directory_page_ids_.getD (h.HashToDirectoryIndex hash) 0

/-- Modelled from the spec: install a directory page id in a header slot. -/
def SetDirectoryPageId (h : ExtendibleHTableHeaderPage) (directory_idx : Nat)
    (directory_page_id : Int) : ExtendibleHTableHeaderPage :=
  { h with directory_page_ids_ :=
      h.directory_page_ids_.set directory_idx directory_page_id }

end ExtendibleHTableHeaderPage

/-- Modelled from the spec: the bucket page implementation is not among the
source files.  Spec §6 capability: `Init(capacity)`, `Lookup`,
`Insert → bool`, `Remove → bool`, `IsFull`, `IsEmpty`, `Size`,
`KeyAt`/`ValueAt`; §3: a fixed-capacity array of key-value pairs.  The
duplicate-key policy is left open by the spec (§9); insertion here appends
when not full, removal erases the first matching key. -/
structure BucketPage where
  max_size_ : Nat
  pairs_ : List (Nat × Nat)
deriving Repr, DecidableEq

namespace BucketPage

/-- Modelled from the spec: a freshly initialized empty bucket. -/
def Init (max_size : Nat) : BucketPage := ⟨max_size, []⟩

/-- Modelled from the spec: current number of stored pairs. -/
def Size (b : BucketPage) : Nat := b.pairs_.length

/-- Modelled from the spec: the bucket is at capacity. -/
def IsFull (b : BucketPage) : Bool := b.pairs_.length == b.max_size_

/-- Modelled from the spec: the bucket holds no pairs. -/
def IsEmpty (b : BucketPage) : Bool := b.pairs_.length == 0

/-- Modelled from the spec: the key stored at index `i`. -/
def KeyAt (b : BucketPage) (i : Nat) : Nat := (b.pairs_.getD i (0, 0)).1

/-- Modelled from the spec: the value stored at index `i`. -/
def ValueAt (b : BucketPage) (i : Nat) : Nat := (b.pairs_.getD i (0, 0)).2

/-- Modelled from the spec: the value of the first pair matching the key. -/
def Lookup (b : BucketPage) (key : Nat) : Option Nat :=
  (b.pairs_.find? fun p => p.1 == key).map Prod.snd

/-- Modelled from the spec: append the pair unless the bucket is full. -/
def Insert (b : BucketPage) (key value : Nat) : Bool × BucketPage :=
  if b.IsFull then (false, b)
  else (true, { b with pairs_ := b.pairs_ ++ [(key, value)] })

/-- Modelled from the spec: erase the first pair matching the key. -/
def Remove (b : BucketPage) (key : Nat) : Bool × BucketPage :=
  if b.pairs_.any fun p => p.1 == key then
    (true, { b with pairs_ := b.pairs_.eraseP fun p => p.1 == key })
  else (false, b)

end BucketPage

/-- The guard of the cascading-merge loop in
`DiskExtendibleHashTable::Remove` (line 317):
`while (bucket_page->IsEmpty() && !direc_page->GetGlobalDepth())` — the
`uint32` negation `!global_depth` is true exactly when the depth is zero. -/
def removeMergeLoopGuard (bucketIsEmpty : Bool) (global_depth : Nat) : Bool :=
  bucketIsEmpty && (global_depth == 0)

/-- The `new_local_depth` computed by the first line of the merge-loop body,
`direc_page->GetLocalDepth(bucket_idx) - 1`, in `uint32` arithmetic. -/
def removeNewLocalDepth (local_depth : Nat) : Nat :=
  (local_depth + (2 ^ 32 - 1)) % 2 ^ 32

/-- C2: the merge-loop guard is inverted.  With the bucket empty and global
depth 1 the loop is not entered (the claim says the cascade must run while
the depth is nonzero), while with the empty sole bucket at global depth 0 the
loop is entered (the claim says merging must never be attempted there) and
the body's `local_depth - 1` underflows to `2^32 - 1`. -/
theorem remove_merge_loop_guard_inverted :
    removeMergeLoopGuard true 1 = false ∧
    removeMergeLoopGuard true 0 = true ∧
    removeNewLocalDepth 0 = 2 ^ 32 - 1 := by
  refine ⟨by decide, by decide, ?_⟩
  norm_num [removeNewLocalDepth]

/-- Overwrite-or-insert for the page maps of the hash-table model. -/
def assocSet {α : Type} (l : List (Int × α)) (key : Int) (v : α) :
    List (Int × α) :=
  assocUpsert l key v fun _ => v

/-- The hash-table model's state: the header page, the directory and bucket
pages reachable from it (addressed by page id), the stream of page ids the
pool will hand out (`-1` = allocation failure), and the construction-time
bounds.  Pages are reached through a functioning pool as §4.3 of the spec
describes it (the committed guard wrappers are stubs — see C3): fetching an
allocated page succeeds, `NewPageGuarded` draws the next element of
`allocs_`. -/
structure DiskExtendibleHashTable where
  header_ : ExtendibleHTableHeaderPage
  dirs_ : List (Int × ExtendibleHTableDirectoryPage)
  buckets_ : List (Int × BucketPage)
  allocs_ : List Int
  directory_max_depth_ : Nat
  bucket_max_size_ : Nat
deriving Repr, DecidableEq

namespace DiskExtendibleHashTable

/-- Modelled from the spec: `bpm_->NewPageGuarded(&page_id)` per §4.3 — a
fresh page id, or the invalid id on pool exhaustion. -/
def newPageGuarded (ht : DiskExtendibleHashTable) :
    Int × DiskExtendibleHashTable :=
  match ht.allocs_ with
  | [] => (-1, ht)
  | a :: rest => (a, { ht with allocs_ := rest })

/-- Commit an in-place mutation of a write-latched directory page. -/
def withDir (ht : DiskExtendibleHashTable) (pid : Int)
    (d : ExtendibleHTableDirectoryPage) : DiskExtendibleHashTable :=
  { ht with dirs_ := assocSet ht.dirs_ pid d }

/-- Commit an in-place mutation of a write-latched bucket page. -/
def withBucket (ht : DiskExtendibleHashTable) (pid : Int) (b : BucketPage) :
    DiskExtendibleHashTable :=
  { ht with buckets_ := assocSet ht.buckets_ pid b }

/-- `DiskExtendibleHashTable::InsertToNewBucket` (lines 212-228): allocate a
bucket page (fail on exhaustion), point the directory slot at it, initialize
it and insert. -/
def InsertToNewBucket (ht : DiskExtendibleHashTable) (direc_page_id : Int)
    (directory : ExtendibleHTableDirectoryPage) (bucket_idx : Nat)
    (key value : Nat) : Bool × DiskExtendibleHashTable :=
  match newPageGuarded ht with
  | (bucket_page_id, ht) =>
    if bucket_page_id = -1 then (false, ht)
    else
      let directory := directory.SetBucketPageId bucket_idx bucket_page_id
      let bucket_page := BucketPage.Init ht.bucket_max_size_
      match bucket_page.Insert key value with
      | (ok, bucket_page) =>
        (ok, withBucket (withDir ht direc_page_id directory) bucket_page_id
          bucket_page)

/-- A freshly allocated page as the directory-page view sees it before
`Init`: the pool zero-fills new frames (`ResetMemory`). -/
def zeroedDirectoryPage : ExtendibleHTableDirectoryPage :=
  { max_depth_ := 0, global_depth_ := 0,
    local_depths_ := List.replicate HTABLE_DIRECTORY_ARRAY_SIZE 0,
    bucket_page_ids_ := List.replicate HTABLE_DIRECTORY_ARRAY_SIZE 0 }

/-- `DiskExtendibleHashTable::InsertToNewDirectory` (lines 193-210): allocate
a directory page (fail on exhaustion), install it in the header — before
knowing whether the bucket allocation below will succeed — initialize it and
recurse into bucket creation. -/
def InsertToNewDirectory (ht : DiskExtendibleHashTable) (directory_idx : Nat)
    (hash key value : Nat) : Bool × DiskExtendibleHashTable :=
  match newPageGuarded ht with
  | (direc_page_id, ht) =>
    if direc_page_id = -1 then (false, ht)
    else
      let ht := { ht with
        header_ := ht.header_.SetDirectoryPageId directory_idx direc_page_id }
      let direc_page := zeroedDirectoryPage.Init ht.directory_max_depth_
      let ht := withDir ht direc_page_id direc_page
      let bucket_idx := direc_page.HashToBucketIndex hash
      InsertToNewBucket ht direc_page_id direc_page bucket_idx key value

/-- The redistribution loop of a split (lines 166-181): iterate over the
pre-split size, re-hash each slot's key and move matching entries into the
new bucket; the bucket is mutated while the loop indexes into it, exactly as
the source does. -/
def redistribute (hashF : Nat → Nat) (new_mask new_tidx : Nat)
    (bucket new_bucket : BucketPage) : BucketPage × BucketPage :=
  (List.range bucket.Size).foldl
    (fun (st : BucketPage × BucketPage) i =>
      let key := st.1.KeyAt i
      let value := st.1.ValueAt i
      let hash := hashF key
      if hash &&& new_mask == new_tidx then
        match st.1.Remove key with
        | (_, b1) =>
          match st.2.Insert key value with
          | (_, b2) => (b1, b2)
      else st)
    (bucket, new_bucket)

/-- The `while (bucket_page->IsFull())` split loop of
`DiskExtendibleHashTable::Insert` (lines 137-190), unrolled on explicit fuel
(the C++ loop is unbounded; the paths proved about below terminate within the
provided fuel).  Page mutations are committed to the table state at every
exit, as the in-place writes through the write guards are. -/
def insertLoop (hashF : Nat → Nat) :
    Nat → DiskExtendibleHashTable → Int → ExtendibleHTableDirectoryPage →
    Nat → Int → BucketPage → Nat → Nat → Nat →
    Bool × DiskExtendibleHashTable
  | 0, ht, _, _, _, _, _, _, _, _ => (false, ht)
  | fuel + 1, ht, direc_page_id, direc_page, bucket_idx, bucket_page_id,
      bucket_page, hash, key, value =>
    if !bucket_page.IsFull then
      match bucket_page.Insert key value with
      | (_, bucket_page) =>
        (true, withBucket (withDir ht direc_page_id direc_page)
          bucket_page_id bucket_page)
    else
      let old_lodep := direc_page.GetLocalDepth bucket_idx
      let old_glodep := direc_page.GetGlobalDepth
      if old_lodep = old_glodep ∧ old_glodep = ht.directory_max_depth_ then
        (false, withBucket (withDir ht direc_page_id direc_page)
          bucket_page_id bucket_page)
      else
        let direc_page := if old_lodep = old_glodep then
          direc_page.IncrGlobalDepth else direc_page
        let bucket_idx := direc_page.HashToBucketIndex hash
        match newPageGuarded (withDir ht direc_page_id direc_page) with
        | (new_bucket_page_id, ht) =>
          if new_bucket_page_id = -1 then
            (false, withBucket ht bucket_page_id bucket_page)
          else
            let new_bucket_page := BucketPage.Init ht.bucket_max_size_
            let local_depth := direc_page.GetLocalDepth bucket_idx
            let new_mask := (1 <<< (local_depth + 1)) - 1
            let new_tidx := bucket_idx &&& new_mask
            match redistribute hashF new_mask new_tidx bucket_page
              new_bucket_page with
            | (bucket_page, new_bucket_page) =>
              let direc_page := UpdateDirectoryMapping direc_page bucket_idx
                new_bucket_page_id (local_depth + 1) new_mask
              let ht := withBucket
                (withBucket (withDir ht direc_page_id direc_page)
                  bucket_page_id bucket_page)
                new_bucket_page_id new_bucket_page
              insertLoop hashF fuel ht direc_page_id direc_page bucket_idx
                new_bucket_page_id new_bucket_page hash key value

/-- `DiskExtendibleHashTable::Insert` (lines 102-191): resolve the header
slot, lazily allocate a directory/bucket when missing, otherwise run the
split loop and insert. -/
def Insert (hashF : Nat → Nat) (fuel : Nat) (ht : DiskExtendibleHashTable)
    (key value : Nat) : Bool × DiskExtendibleHashTable :=
  let hash := hashF key
  let direc_idx := ht.header_.HashToDirectoryIndex hash
  let direc_page_id := ht.header_.HashToPageId hash
  if direc_page_id = -1 then
    InsertToNewDirectory ht direc_idx hash key value
  else
    match assocFind ht.dirs_ direc_page_id with
    | none => (false, ht)
    | some direc_page =>
      let bucket_idx := direc_page.HashToBucketIndex hash
      let bucket_page_id := direc_page.HashToPageId hash
      if bucket_page_id = -1 then
        InsertToNewBucket ht direc_page_id direc_page bucket_idx key value
      else
        match assocFind ht.buckets_ bucket_page_id with
        | none => (false, ht)
        | some bucket_page =>
          insertLoop hashF fuel ht direc_page_id direc_page bucket_idx
            bucket_page_id bucket_page hash key value

end DiskExtendibleHashTable

/-- The directory page of `htOneFullBucket`: global depth 0, slot 0 pointing
at bucket page 2 with local depth 0. -/
def dirForC7 : ExtendibleHTableDirectoryPage :=
  { max_depth_ := 2, global_depth_ := 0,
    local_depths_ := List.replicate HTABLE_DIRECTORY_ARRAY_SIZE 0,
    bucket_page_ids_ :=
      (List.replicate HTABLE_DIRECTORY_ARRAY_SIZE (-1)).set 0 2 }

/-- A table (header depth 0, directory max depth 2, bucket capacity 1) whose
single bucket (page 2) is full, and whose pool will fail the next page
allocation. -/
def htOneFullBucket : DiskExtendibleHashTable :=
  { header_ := ⟨0, [1]⟩
    dirs_ := [(1, dirForC7)]
    buckets_ := [(2, ⟨1, [(0, 0)]⟩)]
    allocs_ := [-1]
    directory_max_depth_ := 2
    bucket_max_size_ := 1 }

/-- C7: an `Insert` that returns `false` can leave the table observably
changed.  On `htOneFullBucket`, inserting key 1 (identity hash) finds the
bucket full, grows the directory (`IncrGlobalDepth`, global depth 0 → 1,
mirroring slot 0 into slot 1), then fails the new-bucket allocation and
returns `false` — with the directory's global depth permanently incremented,
refuting the claim that the directory global depth (and hence the whole
table) is unchanged on a `false` return. -/
theorem insert_false_leaves_directory_grown :
    (DiskExtendibleHashTable.Insert (fun h => h) 2 htOneFullBucket 1 7).1
      = false ∧
    (assocFind htOneFullBucket.dirs_ 1).map
      ExtendibleHTableDirectoryPage.global_depth_ = some 0 ∧
    (assocFind
      (DiskExtendibleHashTable.Insert
        (fun h => h) 2 htOneFullBucket 1 7).2.dirs_ 1).map
      ExtendibleHTableDirectoryPage.global_depth_ = some 1 := by
  refine ⟨?_, ?_, ?_⟩ <;> rfl

end BusTub
